import Mathlib

/-
Verification development for the mup-tauri backend services.

This file gives a shallow embedding, in Lean 4, of the JSON-backed
persistence services of the repository (model presets, cost tracking,
icon themes) and of the model health checker, and proves properties of
those embeddings.

Modelling conventions, used throughout:
  - JavaScript numbers are modelled as rationals (costs, metadata
    values) or as integers (millisecond timestamps, token counts);
    the arithmetic performed by the services is addition and
    comparison only, which these types model exactly.
  - JSON values are modelled by the inductive type `Json`.  A
    TypeScript value that a service passes through without inspecting
    (for example preset model metadata) is modelled as a `Json` value.
  - JavaScript objects used as string-keyed records are modelled as
    association lists in insertion order: updating an existing key
    keeps its position, adding a new key appends.
  - A daily-summary key is the string `new Date(ms).toISOString().slice(0, 10)`,
    the UTC calendar date of the timestamp.  Such strings compare
    (equality and lexicographic order) exactly as the UTC day numbers
    `Int.ediv ms 86400000` compare, so the embedding uses the day
    number as the key.
  - File-system reads are modelled by explicit parameters (a read
    outcome, or a map from absolute paths to file contents).
  - The asynchronous services perform a full read-modify-write cycle
    per call; each operation is modelled as a pure state transformer
    on the persisted file contents.
-/

namespace Mup

/-- JSON values, as produced by JSON.parse. -/
inductive Json where
  | null
  | bool (b : Bool)
  | num (q : ℚ)
  | str (s : String)
  | arr (elems : List Json)
  | obj (fields : List (String × Json))

mutual

def Json.decEq : (a b : Json) → Decidable (a = b)
  | .null, .null => isTrue rfl
  | .bool x, .bool y =>
    if h : x = y then isTrue (by rw [h]) else isFalse (by intro hc; cases hc; exact h rfl)
  | .num x, .num y =>
    if h : x = y then isTrue (by rw [h]) else isFalse (by intro hc; cases hc; exact h rfl)
  | .str x, .str y =>
    if h : x = y then isTrue (by rw [h]) else isFalse (by intro hc; cases hc; exact h rfl)
  | .arr xs, .arr ys =>
    match Json.decEqList xs ys with
    | isTrue h => isTrue (by rw [h])
    | isFalse h => isFalse (by intro hc; cases hc; exact h rfl)
  | .obj xs, .obj ys =>
    match Json.decEqFields xs ys with
    | isTrue h => isTrue (by rw [h])
    | isFalse h => isFalse (by intro hc; cases hc; exact h rfl)
  | .null, .bool _ => isFalse (by intro h; cases h)
  | .null, .num _ => isFalse (by intro h; cases h)
  | .null, .str _ => isFalse (by intro h; cases h)
  | .null, .arr _ => isFalse (by intro h; cases h)
  | .null, .obj _ => isFalse (by intro h; cases h)
  | .bool _, .null => isFalse (by intro h; cases h)
  | .bool _, .num _ => isFalse (by intro h; cases h)
  | .bool _, .str _ => isFalse (by intro h; cases h)
  | .bool _, .arr _ => isFalse (by intro h; cases h)
  | .bool _, .obj _ => isFalse (by intro h; cases h)
  | .num _, .null => isFalse (by intro h; cases h)
  | .num _, .bool _ => isFalse (by intro h; cases h)
  | .num _, .str _ => isFalse (by intro h; cases h)
  | .num _, .arr _ => isFalse (by intro h; cases h)
  | .num _, .obj _ => isFalse (by intro h; cases h)
  | .str _, .null => isFalse (by intro h; cases h)
  | .str _, .bool _ => isFalse (by intro h; cases h)
  | .str _, .num _ => isFalse (by intro h; cases h)
  | .str _, .arr _ => isFalse (by intro h; cases h)
  | .str _, .obj _ => isFalse (by intro h; cases h)
  | .arr _, .null => isFalse (by intro h; cases h)
  | .arr _, .bool _ => isFalse (by intro h; cases h)
  | .arr _, .num _ => isFalse (by intro h; cases h)
  | .arr _, .str _ => isFalse (by intro h; cases h)
  | .arr _, .obj _ => isFalse (by intro h; cases h)
  | .obj _, .null => isFalse (by intro h; cases h)
  | .obj _, .bool _ => isFalse (by intro h; cases h)
  | .obj _, .num _ => isFalse (by intro h; cases h)
  | .obj _, .str _ => isFalse (by intro h; cases h)
  | .obj _, .arr _ => isFalse (by intro h; cases h)

def Json.decEqList : (a b : List Json) → Decidable (a = b)
  | [], [] => isTrue rfl
  | [], _ :: _ => isFalse (by intro h; cases h)
  | _ :: _, [] => isFalse (by intro h; cases h)
  | x :: xs, y :: ys =>
    match Json.decEq x y, Json.decEqList xs ys with
    | isTrue h1, isTrue h2 => isTrue (by rw [h1, h2])
    | isFalse h1, _ => isFalse (by intro hc; cases hc; exact h1 rfl)
    | _, isFalse h2 => isFalse (by intro hc; cases hc; exact h2 rfl)

def Json.decEqFields : (a b : List (String × Json)) → Decidable (a = b)
  | [], [] => isTrue rfl
  | [], _ :: _ => isFalse (by intro h; cases h)
  | _ :: _, [] => isFalse (by intro h; cases h)
  | (k1, v1) :: xs, (k2, v2) :: ys =>
    if h0 : k1 = k2 then
      match Json.decEq v1 v2, Json.decEqFields xs ys with
      | isTrue h1, isTrue h2 => isTrue (by rw [h0, h1, h2])
      | isFalse h1, _ => isFalse (by intro hc; cases hc; exact h1 rfl)
      | _, isFalse h2 => isFalse (by intro hc; cases hc; exact h2 rfl)
    else isFalse (by intro hc; cases hc; exact h0 rfl)

end

instance : DecidableEq Json := Json.decEq

/-- Lookup in an association list (first matching key), modelling
JavaScript property access on a string-keyed record. -/
def getAssoc {α β : Type} [DecidableEq α] : List (α × β) → α → Option β
  | [], _ => none
  | (k, v) :: rest, a => if k = a then some v else getAssoc rest a

/-- Update in an association list: replace the value at the first
occurrence of the key in place, or append the binding if the key is
absent.  This is how assignment to a key behaves on a JavaScript
object (insertion order is preserved for existing keys, new keys go
last). -/
def setAssoc {α β : Type} [DecidableEq α] : List (α × β) → α → β → List (α × β)
  | [], k, v => [(k, v)]
  | (k0, v0) :: rest, k, v =>
    if k0 = k then (k, v) :: rest else (k0, v0) :: setAssoc rest k v

/-- Property access `j[key]` on a parsed JSON value: a field of an
object, undefined (`none`) on anything else. -/
def Json.getField (j : Json) (key : String) : Option Json :=
  match j with
  | .obj fields => getAssoc fields key
  | _ => none

/-- JavaScript truthiness of a parsed JSON value. -/
def Json.jsTruthy : Json → Bool
  | .null => false
  | .bool b => b
  | .num q => decide (q ≠ 0)
  | .str s => decide (s ≠ "")
  | .arr _ => true
  | .obj _ => true

/-- JavaScript `typeof v === "object"`: true for objects, arrays and
null. -/
def Json.jsTypeofObject : Json → Bool
  | .null => true
  | .arr _ => true
  | .obj _ => true
  | _ => false

/-
Model Health Check Service (ModelHealthService).

The service evaluates five independent checks for a (provider,
modelId, optional custom metadata) triple and combines them into an
overall status.  External collaborators of the service that are not
part of the embedded sources (the parsed providers.jsonc file, the
KNOWN_MODELS registry, the SUPPORTED_PROVIDERS list, the credential
resolver and the URL parser of the JavaScript runtime) are supplied as
an explicit environment; the logic of the service itself is embedded
from the source.
-/

/-- Status of a single health check. -/
inductive CheckStatus where
  | pass
  | warn
  | fail
  | skip
deriving DecidableEq

/-- Overall status of a health check result. -/
inductive OverallStatus where
  | healthy
  | warning
  | error
deriving DecidableEq

/-- Result of a single health check. -/
structure CheckResult where
  status : CheckStatus
  message : String
  details : Option String
deriving DecidableEq

/-- Custom model metadata fields consulted by the health checker
(numbers are optional in the TypeScript type). -/
structure CustomModelMetadata where
  maxInputTokens : Option ℚ
  maxOutputTokens : Option ℚ
  inputCostPerToken : Option ℚ
  outputCostPerToken : Option ℚ
deriving DecidableEq

/-- Raw provider configuration section from providers.jsonc (only the
fields the health checker consults). -/
structure ProviderConfigRaw where
  apiKey : Option String
  baseUrl : Option String
  baseURL : Option String
deriving DecidableEq

/-- Result of resolveProviderCredentials (external utility). -/
structure ProviderCredentials where
  isConfigured : Bool
  missingRequirement : Option String

/-- An entry of the KNOWN_MODELS registry (external constant). -/
structure KnownModelInfo where
  id : String
  provider : String
  aliases : Option (List String)

/-- Environment of the health checker: the external collaborators it
reads but does not define. -/
structure HealthEnv where
  providerConfig : String → Option ProviderConfigRaw
  supportedProviders : List String
  resolveProviderCredentials : String → ProviderConfigRaw → ProviderCredentials
  knownModels : List (String × KnownModelInfo)
  isValidUrl : String → Bool

/-- Truthiness of an optional JavaScript number (undefined and 0 are
falsy). -/
def numTruthy : Option ℚ → Bool
  | none => false
  | some q => decide (q ≠ 0)

/-- Truthiness of an optional JavaScript string (undefined and the
empty string are falsy). -/
def strTruthy : Option String → Bool
  | none => false
  | some s => decide (s ≠ "")

/-- The JavaScript guard `x && p(x)` for an optional number x: false
when x is undefined or 0, otherwise the comparison. -/
def jsNumCond (o : Option ℚ) (p : ℚ → Bool) : Bool :=
  match o with
  | none => false
  | some q => if q = 0 then false else p q

/-- The JavaScript guard `x && y && p(x, y)` for optional numbers. -/
def jsNumCond2 (a b : Option ℚ) (p : ℚ → ℚ → Bool) : Bool :=
  match a, b with
  | some x, some y => if x = 0 then false else if y = 0 then false else p x y
  | _, _ => false

/-- ModelHealthService.checkAuthentication.  The catch-all branch of
the source is unreachable here because the embedded environment
functions are total. -/
def checkAuthentication (env : HealthEnv) (provider : String) : CheckResult :=
  match env.providerConfig provider with
  | none =>
      { status := .warn
        message := "No provider config found"
        details := some "Provider section missing from providers.jsonc" }
  | some rawConfig =>
      if ¬ (env.supportedProviders.contains provider) then
        let hasKey := match rawConfig.apiKey with
          | some s => decide (0 < s.length)
          | none => false
        if hasKey then
          { status := .pass, message := "API key present (custom provider)", details := none }
        else
          { status := .warn, message := "No API key found for custom provider", details := none }
      else
        let creds := env.resolveProviderCredentials provider rawConfig
        if creds.isConfigured then
          { status := .pass, message := "Credentials configured", details := none }
        else
          { status := .fail
            message := "Missing " ++ (creds.missingRequirement.getD "credentials")
            details := some ("Provider " ++ provider ++ " requires "
              ++ (creds.missingRequirement.getD "credentials") ++ " to be set") }

/-- ModelHealthService.checkModelExists. -/
def checkModelExists (env : HealthEnv) (provider modelId : String) : CheckResult :=
  let fullId := provider ++ ":" ++ modelId
  match getAssoc env.knownModels fullId with
  | some _ =>
      { status := .pass, message := "Built-in model recognized", details := none }
  | none =>
      let knownByAlias := (env.knownModels.map (fun p => p.2)).find?
        (fun m => m.provider == provider && (m.aliases.getD []).contains modelId)
      match knownByAlias with
      | some m =>
          { status := .pass, message := "Known model (alias of " ++ m.id ++ ")", details := none }
      | none =>
          { status := .warn
            message := "Custom model — not in built-in registry"
            details := some "Model may still work if the provider supports it. Verify by sending a test request." }

/-- ModelHealthService.checkTokenLimits.  The interpolated numeric
values of the source messages are elided. -/
def checkTokenLimits (customMetadata : Option CustomModelMetadata) : CheckResult :=
  match customMetadata with
  | none => { status := .skip, message := "No custom token limits configured", details := none }
  | some md =>
      if ¬ numTruthy md.maxInputTokens ∧ ¬ numTruthy md.maxOutputTokens then
        { status := .skip, message := "No custom token limits configured", details := none }
      else
        let warnings : List String :=
          (if jsNumCond md.maxInputTokens (fun q => decide (q < 1000)) then
            ["Input token limit seems very low"] else [])
          ++ (if jsNumCond md.maxOutputTokens (fun q => decide (q < 100)) then
            ["Output token limit seems very low"] else [])
          ++ (if jsNumCond2 md.maxInputTokens md.maxOutputTokens (fun i o => decide (i < o)) then
            ["Output limit exceeds input limit — this is unusual"] else [])
        if warnings ≠ [] then
          { status := .warn
            message := "Token limit configuration may need review"
            details := some (String.intercalate "; " warnings) }
        else
          { status := .pass, message := "Token limits look reasonable", details := none }

/-- ModelHealthService.checkPricing. -/
def checkPricing (customMetadata : Option CustomModelMetadata) : CheckResult :=
  match customMetadata with
  | none => { status := .skip, message := "No custom pricing configured", details := none }
  | some md =>
      if ¬ numTruthy md.inputCostPerToken ∧ ¬ numTruthy md.outputCostPerToken then
        { status := .skip, message := "No custom pricing configured", details := none }
      else
        let warnings : List String :=
          (if jsNumCond md.inputCostPerToken (fun q => decide (q < 0)) then
            ["Input cost per token is negative"] else [])
          ++ (if jsNumCond md.outputCostPerToken (fun q => decide (q < 0)) then
            ["Output cost per token is negative"] else [])
          ++ (if jsNumCond2 md.inputCostPerToken md.outputCostPerToken (fun i o => decide (o < i)) then
            ["Input cost is higher than output cost — this is unusual for most providers"] else [])
        if warnings ≠ [] then
          { status := .warn
            message := "Pricing configuration may need review"
            details := some (String.intercalate "; " warnings) }
        else
          { status := .pass, message := "Pricing looks reasonable", details := none }

/-- ModelHealthService.checkConnectivity.  The catch branch of the
source is unreachable here because the embedded environment functions
are total. -/
def checkConnectivity (env : HealthEnv) (provider : String) : CheckResult :=
  match env.providerConfig provider with
  | none =>
      { status := .skip, message := "No provider config — skipping connectivity", details := none }
  | some rawConfig =>
      if strTruthy rawConfig.baseUrl || strTruthy rawConfig.baseURL then
        let url := rawConfig.baseUrl.getD (rawConfig.baseURL.getD "")
        if env.isValidUrl url then
          { status := .pass, message := "Custom base URL configured: " ++ url, details := none }
        else
          { status := .fail
            message := "Invalid base URL"
            details := some (url ++ " is not a valid URL") }
      else
        { status := .pass, message := "Using default provider endpoint", details := none }

/-- The five checks of a health check result. -/
structure HealthChecks where
  authentication : CheckResult
  modelExists : CheckResult
  tokenLimits : CheckResult
  pricing : CheckResult
  connectivity : CheckResult

/-- The overall status combinator of ModelHealthService.checkModel on
the list of the five check statuses: error if any status is fail,
else warning if any status is warn, else healthy. -/
def statusCombine (s1 s2 s3 s4 s5 : CheckStatus) : OverallStatus :=
  let statuses := [s1, s2, s3, s4, s5]
  if statuses.any (fun s => s == .fail) then .error
  else if statuses.any (fun s => s == .warn) then .warning
  else .healthy

/-- The overall status of the five checks of a health check result. -/
def overallStatus (checks : HealthChecks) : OverallStatus :=
  statusCombine checks.authentication.status checks.modelExists.status
    checks.tokenLimits.status checks.pricing.status checks.connectivity.status

/-- A full health check result. -/
structure HealthCheckResult where
  modelId : String
  provider : String
  timestamp : Int
  status : OverallStatus
  checks : HealthChecks

/-- ModelHealthService.checkModel. -/
def checkModel (env : HealthEnv) (provider modelId : String)
    (customMetadata : Option CustomModelMetadata) (now : Int) : HealthCheckResult :=
  let checks : HealthChecks :=
    { authentication := checkAuthentication env provider
      modelExists := checkModelExists env provider modelId
      tokenLimits := checkTokenLimits customMetadata
      pricing := checkPricing customMetadata
      connectivity := checkConnectivity env provider }
  { modelId := modelId
    provider := provider
    timestamp := now
    status := overallStatus checks
    checks := checks }

/-
Model Presets Service (ModelPresetsService).

Data is stored in model-presets.json; every operation reads the file,
transforms it, and (when it mutates) writes it back atomically.  Each
operation is embedded as a pure function of the persisted file
contents.  Fresh identifiers come from crypto.randomUUID(); the
successive draws are modelled by an explicit stream of identifiers.
Model metadata is passed through by this service without inspection
and is modelled as an opaque `Json` value.
-/

/-- A model entry of a preset. -/
structure PresetModelEntry where
  provider : String
  modelId : String
  metadata : Option Json
deriving DecidableEq

/-- A saved model preset. -/
structure ModelPreset where
  id : String
  name : String
  description : Option String
  createdAt : Int
  updatedAt : Int
  models : List PresetModelEntry
deriving DecidableEq

/-- The persisted shape of model-presets.json (version 1). -/
structure ModelPresetsFile where
  presets : List ModelPreset
deriving DecidableEq

/-- The empty presets file. -/
def emptyPresetsFile : ModelPresetsFile := { presets := [] }

/-- Result type of the fallible service operations
(`{success:true,data}` or `{success:false,error}` in the source). -/
inductive Res (α : Type) where
  | ok (data : α)
  | err (error : String)
deriving DecidableEq

/-- Outcome of reading a JSON file from disk: the file may be absent,
unparsable, or parse to a JSON value. -/
inductive ReadOutcome where
  | missing
  | unparsable
  | parsed (j : Json)

/-- The JSON encoding of the empty presets file, as written by
JSON.stringify of EMPTY_FILE. -/
def emptyPresetsJson : Json :=
  .obj [("version", .num 1), ("presets", .arr [])]

/-- ModelPresetsService.readFile: returns the parsed file contents,
or a copy of EMPTY_FILE when the file is missing (ENOENT) or any
other read or parse error occurs.  The parsed value is cast to the
file type without validation, so it is returned unchanged whatever
its version tag; the embedding therefore returns the untyped JSON
value. -/
def presetsReadFile : ReadOutcome → Json
  | .missing => emptyPresetsJson
  | .unparsable => emptyPresetsJson
  | .parsed j => j

/-- ModelPresetsService.savePreset: builds a preset with a fresh id
and two equal timestamps, appends it and persists.  Returns the
preset and the new persisted file. -/
def savePreset (file : ModelPresetsFile) (freshId : String) (now : Int)
    (name : String) (models : List PresetModelEntry) (description : Option String) :
    ModelPreset × ModelPresetsFile :=
  let preset : ModelPreset :=
    { id := freshId
      name := name
      description := description
      createdAt := now
      updatedAt := now
      models := models }
  (preset, { presets := file.presets ++ [preset] })

/-- ModelPresetsService.getPreset: linear scan by id. -/
def getPreset (file : ModelPresetsFile) (id : String) : Option ModelPreset :=
  file.presets.find? (fun p => p.id == id)

/-- JSON encoding of a preset model entry, as produced by
JSON.stringify (an undefined metadata field is omitted). -/
def encodeModelEntry (m : PresetModelEntry) : Json :=
  .obj ([("provider", .str m.provider), ("modelId", .str m.modelId)]
    ++ (match m.metadata with
        | some j => [("metadata", j)]
        | none => []))

/-- JSON encoding of a preset, as produced by JSON.stringify (an
undefined description field is omitted). -/
def encodePreset (p : ModelPreset) : Json :=
  .obj ([("id", .str p.id), ("name", .str p.name)]
    ++ (match p.description with
        | some d => [("description", .str d)]
        | none => [])
    ++ [("createdAt", .num p.createdAt), ("updatedAt", .num p.updatedAt),
        ("models", .arr (p.models.map encodeModelEntry))])

/-- ModelPresetsService.exportPresets: serializes the selected presets
(all of them when no ids are given) wrapped in a version-1 envelope.
The source returns the JSON text; the embedding returns the JSON
value the text denotes. -/
def exportPresets (file : ModelPresetsFile) (ids : Option (List String)) : Json :=
  let presets : List ModelPreset := match ids with
    | some l => file.presets.filter (fun p => l.contains p.id)
    | none => file.presets
  .obj [("version", .num 1), ("presets", .arr (presets.map encodePreset))]

/-- The body of the per-model validation loop of
ModelPresetsService.importPresets: a truthy object with string
provider and string modelId is accepted, with metadata passed through
unchanged; anything else is skipped. -/
def importModelEntry (m : Json) : Option PresetModelEntry :=
  if ¬ (m.jsTruthy && m.jsTypeofObject) then none
  else
    match m.getField "provider", m.getField "modelId" with
    | some (.str provider), some (.str modelId) =>
        some { provider := provider, modelId := modelId, metadata := m.getField "metadata" }
    | _, _ => none

/-- The per-model validation loop of ModelPresetsService.importPresets. -/
def importModels (ms : List Json) : List PresetModelEntry :=
  ms.filterMap importModelEntry

/-- The per-preset validation of ModelPresetsService.importPresets:
a truthy object with a string name and an array models field is
accepted (yielding name, optional description and validated models);
anything else is skipped. -/
def importPresetRaw (raw : Json) : Option (String × Option String × List PresetModelEntry) :=
  if ¬ (raw.jsTruthy && raw.jsTypeofObject) then none
  else
    match raw.getField "name", raw.getField "models" with
    | some (.str name), some (.arr ms) =>
        some (name,
          (match raw.getField "description" with
           | some (.str d) => some d
           | _ => none),
          importModels ms)
    | _, _ => none

/-- Builds the imported presets from the accepted entries, drawing
successive fresh identifiers (crypto.randomUUID()) from the id
stream starting at the given index; createdAt = updatedAt = now for
all of them. -/
def assignIds (idStream : Nat → String) (now : Int) (k : Nat) :
    List (String × Option String × List PresetModelEntry) → List ModelPreset
  | [] => []
  | (name, description, models) :: rest =>
      { id := idStream k
        name := name
        description := description
        createdAt := now
        updatedAt := now
        models := models } :: assignIds idStream now (k + 1) rest

/-- ModelPresetsService.importPresets: parses (the parse outcome is
the `parsed` argument, `none` when JSON.parse throws), validates the
envelope and each entry, appends the validated presets with fresh
ids, and persists only when at least one entry validated.  Returns
the operation result and the persisted file (`none` when nothing was
written). -/
def importPresets (parsed : Option Json) (idStream : Nat → String) (now : Int)
    (file : ModelPresetsFile) : Res (List ModelPreset) × Option ModelPresetsFile :=
  match parsed with
  | none => (.err "Invalid JSON", none)
  | some j =>
    if ¬ (j.jsTruthy && j.jsTypeofObject) then
      (.err "Expected an object with presets array", none)
    else
      match j.getField "presets" with
      | some (.arr rawPresets) =>
          let imported := assignIds idStream now 0 (rawPresets.filterMap importPresetRaw)
          if imported = [] then
            (.err "No valid presets found in import data", none)
          else
            (.ok imported, some { presets := file.presets ++ imported })
      | _ => (.err "Missing or invalid presets array", none)

/-
Cost Tracking Service (CostTrackingService).

Data is stored in cost-history.json as an append-only entry log plus
a map of daily summaries keyed by the UTC calendar date string of the
entry timestamp.  Date keys are modelled as UTC day numbers (see the
header comment).  Costs are rationals, token counts and timestamps
are integers.
-/

/-- An immutable cost entry. -/
structure CostEntry where
  timestamp : Int
  workspaceId : String
  model : String
  inputTokens : Int
  outputTokens : Int
  cachedTokens : Int
  cacheCreateTokens : Int
  reasoningTokens : Int
  cost : ℚ
deriving DecidableEq

/-- Per-model subtotal of a daily summary. -/
structure ModelAgg where
  cost : ℚ
  requests : Nat
  tokens : Int
deriving DecidableEq

/-- A daily summary bucket. -/
structure DailySummary where
  date : Int
  totalCost : ℚ
  requestCount : Nat
  byModel : List (String × ModelAgg)
deriving DecidableEq

/-- The persisted shape of cost-history.json (version 1). -/
structure CostHistoryFile where
  entries : List CostEntry
  dailySummaries : List (Int × DailySummary)
deriving DecidableEq

/-- The empty cost history file. -/
def emptyCostFile : CostHistoryFile := { entries := [], dailySummaries := [] }

/-- The JSON encoding of the empty cost history file. -/
def emptyCostJson : Json :=
  .obj [("version", .num 1), ("entries", .arr []), ("dailySummaries", .obj [])]

/-- CostTrackingService.read: returns the parsed file contents when
the version tag strictly equals 1, and a copy of EMPTY_FILE when the
file is missing, unparsable, or carries any other version tag. -/
def costRead : ReadOutcome → Json
  | .missing => emptyCostJson
  | .unparsable => emptyCostJson
  | .parsed j => if j.getField "version" = some (.num 1) then j else emptyCostJson

/-- The UTC day number of a millisecond timestamp:
`new Date(ms).toISOString().slice(0, 10)` keys compare exactly as
these day numbers do.  Lean integer division is Euclidean, which for
the positive divisor coincides with the floor division performed by
the JavaScript date conversion. -/
def dateKey (ms : Int) : Int := ms / 86400000

/-- The token count a cost entry contributes to its per-model
subtotal: input + output + cached + reasoning (cacheCreateTokens is
not counted). -/
def entryTokens (e : CostEntry) : Int :=
  e.inputTokens + e.outputTokens + e.cachedTokens + e.reasoningTokens

/-- The fresh daily summary created when a date bucket is absent. -/
def emptySummary (d : Int) : DailySummary :=
  { date := d, totalCost := 0, requestCount := 0, byModel := [] }

/-- CostTrackingService.recordCost: appends the entry, then updates
(creating it if absent) the daily summary bucket of the entry
timestamp by adding to totalCost, requestCount and the per-model
subtotal, and persists.  The returned state is the persisted file. -/
def recordCost (data : CostHistoryFile) (entry : CostEntry) : CostHistoryFile :=
  let dk := dateKey entry.timestamp
  let summary := (getAssoc data.dailySummaries dk).getD (emptySummary dk)
  let modelSummary := (getAssoc summary.byModel entry.model).getD
    { cost := 0, requests := 0, tokens := 0 }
  let modelSummary' : ModelAgg :=
    { cost := modelSummary.cost + entry.cost
      requests := modelSummary.requests + 1
      tokens := modelSummary.tokens + entryTokens entry }
  let summary' : DailySummary :=
    { summary with
      totalCost := summary.totalCost + entry.cost
      requestCount := summary.requestCount + 1
      byModel := setAssoc summary.byModel entry.model modelSummary' }
  { entries := data.entries ++ [entry]
    dailySummaries := setAssoc data.dailySummaries dk summary' }

/-- Outcome of CostTrackingService.pruneOldEntries: the in-memory
state after filtering, the number of entries removed, and whether the
state was persisted. -/
structure PruneResult where
  state : CostHistoryFile
  pruned : Nat
  wrote : Bool
deriving DecidableEq

/-- CostTrackingService.pruneOldEntries: keeps the entries with
timestamp at least `now - retentionDays * 86400000`, deletes the
daily summary keys strictly below the calendar date of that cutoff,
and persists only when at least one entry was removed. -/
def pruneOldEntries (data : CostHistoryFile) (retentionDays now : Int) : PruneResult :=
  let cutoff := now - retentionDays * 86400000
  let cutoffDate := dateKey cutoff
  let before := data.entries.length
  let entries := data.entries.filter (fun e => decide (cutoff ≤ e.timestamp))
  let dailySummaries := data.dailySummaries.filter (fun p => decide (¬ p.1 < cutoffDate))
  let pruned := before - entries.length
  { state := { entries := entries, dailySummaries := dailySummaries }
    pruned := pruned
    wrote := decide (0 < pruned) }

/-- A call against the cost history store: the service reads the
persisted file, applies the operation, and writes back when the
operation persists.  A prune call that removes nothing leaves the
persisted file unchanged. -/
inductive CostOp where
  | record (e : CostEntry)
  | prune (retentionDays now : Int)

/-- The persisted state after one service call. -/
def applyCostOp (st : CostHistoryFile) : CostOp → CostHistoryFile
  | .record e => recordCost st e
  | .prune retentionDays now =>
      let r := pruneOldEntries st retentionDays now
      if r.wrote then r.state else st

/-- A prune call whose cutoff timestamp falls exactly on a UTC day
boundary. -/
def dayAligned : CostOp → Prop
  | .record _ => True
  | .prune retentionDays now => (now - retentionDays * 86400000) % 86400000 = 0

instance : DecidablePred dayAligned := fun op => by
  cases op with
  | record e => exact isTrue trivial
  | prune rd now => exact inferInstanceAs (Decidable (_ = _))

/-- The entries of the log that fall on a given calendar date. -/
def entriesOn (d : Int) (es : List CostEntry) : List CostEntry :=
  es.filter (fun e => decide (dateKey e.timestamp = d))

/-- The per-model aggregate of a list of entries: summed cost,
request count and token total of the entries of that model. -/
def aggOf (es : List CostEntry) (m : String) : ModelAgg :=
  let ms := es.filter (fun e => e.model == m)
  { cost := (ms.map (fun e => e.cost)).sum
    requests := ms.length
    tokens := (ms.map entryTokens).sum }

/-- The consistency property claimed of the daily summaries: every
summary bucket agrees, in totalCost, requestCount and every per-model
subtotal, with the sums over exactly the entries of the log whose
calendar date matches the bucket key. -/
def summariesConsistent (st : CostHistoryFile) : Prop :=
  ∀ d s, getAssoc st.dailySummaries d = some s →
    s.totalCost = ((entriesOn d st.entries).map (fun e => e.cost)).sum
    ∧ s.requestCount = (entriesOn d st.entries).length
    ∧ ∀ m, (getAssoc s.byModel m).getD { cost := 0, requests := 0, tokens := 0 }
        = aggOf (entriesOn d st.entries) m

/-- The strengthened invariant used for the induction: consistent
summaries as above, with the date field of each bucket equal to its
key, and no bucket for a date without entries. -/
def costInvariant (st : CostHistoryFile) : Prop :=
  ∀ d : Int,
    (getAssoc st.dailySummaries d = none → entriesOn d st.entries = [])
    ∧ ∀ s, getAssoc st.dailySummaries d = some s →
        s.date = d
        ∧ s.totalCost = ((entriesOn d st.entries).map (fun e => e.cost)).sum
        ∧ s.requestCount = (entriesOn d st.entries).length
        ∧ ∀ m, (getAssoc s.byModel m).getD { cost := 0, requests := 0, tokens := 0 }
            = aggOf (entriesOn d st.entries) m

/-- The totalCost of the summary bucket of a date (0 when the bucket
is absent). -/
def totalCostAt (st : CostHistoryFile) (d : Int) : ℚ :=
  ((getAssoc st.dailySummaries d).getD (emptySummary d)).totalCost

/-- The requestCount of the summary bucket of a date (0 when the
bucket is absent). -/
def requestCountAt (st : CostHistoryFile) (d : Int) : Nat :=
  ((getAssoc st.dailySummaries d).getD (emptySummary d)).requestCount

/-- The per-model subtotal of the summary bucket of a date (zero when
absent). -/
def aggAt (st : CostHistoryFile) (d : Int) (m : String) : ModelAgg :=
  (getAssoc ((getAssoc st.dailySummaries d).getD (emptySummary d)).byModel m).getD
    { cost := 0, requests := 0, tokens := 0 }

/-
Icon Theme Service (IconThemeService).

Only the parts needed for getIconFile are embedded: the installed
theme registry (with the synthetic built-in entry) and the path
resolution and traversal guard of getIconFile.  POSIX path semantics
are used: node path.resolve with an absolute base collapses "." and
".." segments and duplicate separators and never ascends above the
root.  The file system is a map from absolute paths to file contents;
the base64 encoding of the returned data is injective and is modelled
by the identity.
-/

/-- Splits a string on a separator character.  This is a structural
reimplementation of String.splitOn for a single-character separator,
used because it reduces inside the kernel. -/
def splitOnChar (c : Char) (s : String) : List String :=
  (s.data.foldr (fun ch acc =>
    match acc with
    | [] => [[ch]]
    | seg :: rest => if ch = c then [] :: seg :: rest else (ch :: seg) :: rest)
    [[]]).map (fun l => String.mk l)

/-- Whether the string s starts with the string pre (JavaScript
String.prototype.startsWith), as a structural list prefix test. -/
def strStartsWith (s pre : String) : Bool := pre.data.isPrefixOf s.data

/-- Lowercases a string characterwise. -/
def lowerStr (s : String) : String := String.mk (s.data.map Char.toLower)

/-- An installed icon theme registry entry. -/
structure InstalledIconTheme where
  id : String
  label : String
  description : Option String
  publisher : Option String
  version : Option String
  themeDir : String
  themeJsonPath : String
  isBuiltin : Bool
deriving DecidableEq

/-- Icon theme configuration state. -/
structure IconThemeConfig where
  activeThemeId : String
  installedThemes : List InstalledIconTheme
deriving DecidableEq

/-- DEFAULT_MUP_THEME_ID. -/
def DEFAULT_MUP_THEME_ID : String := "mup-default"

/-- IconThemeService.getBuiltinThemeDefinition: the synthetic built-in
theme entry, with an empty themeDir. -/
def getBuiltinThemeDefinition : InstalledIconTheme :=
  { id := DEFAULT_MUP_THEME_ID
    label := "MUP Default"
    description := some "Default MUP file icons"
    publisher := none
    version := none
    themeDir := ""
    themeJsonPath := ""
    isBuiltin := true }

/-- IconThemeService.getInstalledThemes: the configured themes, with
the built-in default prepended when no configured theme carries its
id.  The iconThemeConfig section of the application config is
optional. -/
def getInstalledThemes (cfg : Option IconThemeConfig) : List InstalledIconTheme :=
  let installed := (cfg.map (fun c => c.installedThemes)).getD []
  if installed.any (fun t => t.id == DEFAULT_MUP_THEME_ID) then installed
  else getBuiltinThemeDefinition :: installed

/-- Normalizes the segments of a POSIX path: empty and "." segments
are dropped, ".." pops the previous segment (and is dropped at the
root).  The accumulator holds the output segments in reverse. -/
def normalizeSegments (acc : List String) : List String → List String
  | [] => acc.reverse
  | seg :: rest =>
      if seg = "" ∨ seg = "." then normalizeSegments acc rest
      else if seg = ".." then
        match acc with
        | [] => normalizeSegments [] rest
        | _ :: t => normalizeSegments t rest
      else normalizeSegments (seg :: acc) rest

/-- Normalizes an absolute POSIX path. -/
def normalizeAbs (s : String) : String :=
  "/" ++ String.intercalate "/" (normalizeSegments [] (splitOnChar '/' s))

/-- node path.resolve(base, p) for an absolute base: p itself when p
is absolute, otherwise p appended to base, normalized either way. -/
def pathResolve (base p : String) : String :=
  if strStartsWith p "/" then normalizeAbs p
  else normalizeAbs (base ++ "/" ++ p)

/-- node path.extname, lowercased as in the source: the suffix of the
last path segment from its last dot.  (The node corner case of a name
whose only dot is leading is not distinguished; no claim depends on
it.) -/
def extnameLower (p : String) : String :=
  let base := ((splitOnChar '/' p).getLastD "")
  match splitOnChar '.' base with
  | [] => ""
  | [_] => ""
  | parts => "." ++ lowerStr (parts.getLastD "")

/-- IconThemeService.getMimeType. -/
def getMimeType (ext : String) : String :=
  if ext = ".svg" then "image/svg+xml"
  else if ext = ".png" then "image/png"
  else if ext = ".jpg" then "image/jpeg"
  else if ext = ".jpeg" then "image/jpeg"
  else if ext = ".gif" then "image/gif"
  else if ext = ".webp" then "image/webp"
  else if ext = ".ico" then "image/x-icon"
  else if ext = ".woff" then "font/woff"
  else if ext = ".woff2" then "font/woff2"
  else if ext = ".ttf" then "font/ttf"
  else "application/octet-stream"

/-- IconThemeService.getIconFile: looks the theme up, resolves the
icon path against the theme directory, applies the string-prefix
traversal guard of the source, and returns the file contents (the
base64 step is modelled by the identity) with the mime type. -/
def getIconFile (cfg : Option IconThemeConfig) (fileSystem : String → Option String)
    (themeId iconPath : String) : Option (String × String) :=
  let themes := getInstalledThemes cfg
  match themes.find? (fun t => t.id == themeId) with
  | none => none
  | some theme =>
    if theme.themeDir = "" then none
    else
      let fullPath := pathResolve theme.themeDir iconPath
      let resolvedThemeDir := normalizeAbs theme.themeDir
      if ¬ strStartsWith fullPath resolvedThemeDir then none
      else
        match fileSystem fullPath with
        | none => none
        | some content => some (content, getMimeType (extnameLower fullPath))

/-- A resolved path lies inside a root directory when it is the root
itself or extends it at a path-segment boundary.  This is the
property the traversal guard is claimed to enforce. -/
def insideDir (root p : String) : Bool :=
  p == root || strStartsWith p (root ++ "/")

/-
Auxiliary definitions used by the statements and the concrete
evaluations below.
-/

/-- An optional JavaScript number that is absent or equal to 0 (and
hence falsy). -/
def zeroOrAbsent (o : Option ℚ) : Prop := o = none ∨ o = some 0

/-- Componentwise sum of two per-model aggregates. -/
def aggPlus (a b : ModelAgg) : ModelAgg :=
  { cost := a.cost + b.cost
    requests := a.requests + b.requests
    tokens := a.tokens + b.tokens }

/-- A concrete cost entry on UTC day 0, used in the concrete
evaluations: cost 1, model "m", 11 counted tokens. -/
def cxEntry : CostEntry :=
  { timestamp := 0
    workspaceId := "w"
    model := "m"
    inputTokens := 1
    outputTokens := 2
    cachedTokens := 3
    cacheCreateTokens := 4
    reasoningTokens := 5
    cost := 1 }

/-- The cost history obtained by recording `cxEntry` into the empty
store. -/
def cxState : CostHistoryFile := recordCost emptyCostFile cxEntry

/-- A concrete installed icon theme rooted at /themes/a. -/
def cxTheme : InstalledIconTheme :=
  { id := "pub.a"
    label := "A"
    description := none
    publisher := none
    version := none
    themeDir := "/themes/a"
    themeJsonPath := "theme.json"
    isBuiltin := false }

/-- A concrete file system holding one file outside the cxTheme root,
in the sibling directory /themes/a-evil whose name extends the root
name. -/
def cxFileSystem : String → Option String :=
  fun p => if p = "/themes/a-evil/x.svg" then some "SECRET" else none

/-- The expected outcome of importing an export: each original
preset reappears with its name, description and models unchanged, a
fresh identifier drawn from the id stream, and both timestamps set to
the import time. -/
def freshImportsOf (idStream : Nat → String) (now : Int) :
    Nat → List ModelPreset → List ModelPreset
  | _, [] => []
  | k, p :: rest =>
      ⟨idStream k, p.name, p.description, now, now, p.models⟩
        :: freshImportsOf idStream now (k + 1) rest

/-
Helper lemmas.
-/

theorem getAssoc_setAssoc_self {α β : Type} [DecidableEq α]
    (l : List (α × β)) (k : α) (v : β) : getAssoc (setAssoc l k v) k = some v := by
  induction l with
  | nil => simp [getAssoc, setAssoc]
  | cons hd tl ih =>
      obtain ⟨k0, v0⟩ := hd
      by_cases h : k0 = k
      · simp [getAssoc, setAssoc, h]
      · simp [getAssoc, setAssoc, h, ih]

theorem getAssoc_setAssoc_ne {α β : Type} [DecidableEq α]
    (l : List (α × β)) (k d : α) (v : β) (h : k ≠ d) :
    getAssoc (setAssoc l k v) d = getAssoc l d := by
  induction l with
  | nil => simp [getAssoc, setAssoc, h]
  | cons hd tl ih =>
      obtain ⟨k0, v0⟩ := hd
      by_cases h0 : k0 = k
      · subst h0
        simp [getAssoc, setAssoc, h]
      · simp [getAssoc, setAssoc, h0, ih]

theorem getAssoc_filter {α β : Type} [DecidableEq α]
    (l : List (α × β)) (P : α → Bool) (d : α) :
    getAssoc (l.filter (fun p => P p.1)) d = if P d then getAssoc l d else none := by
  induction l with
  | nil => simp [getAssoc]
  | cons hd tl ih =>
      obtain ⟨k0, v0⟩ := hd
      by_cases hk : k0 = d
      · subst hk
        by_cases hp : P k0
        · simp [List.filter_cons, hp, getAssoc]
        · simp [List.filter_cons, hp, getAssoc, ih]
      · by_cases hp : P k0
        · simp [List.filter_cons, hp, getAssoc, hk, ih]
        · simp [List.filter_cons, hp, getAssoc, hk, ih]

theorem length_filter_not_add {α : Type} (l : List α) (p : α → Bool) :
    (l.filter p).length + (l.filter (fun x => ! p x)).length = l.length := by
  induction l with
  | nil => simp
  | cons hd tl ih =>
      by_cases h : p hd
      · simp [List.filter_cons, h]
        omega
      · simp [List.filter_cons, h]
        omega

/-
C1.  Overall health status combinator.
-/

theorem statusCombine_spec (s1 s2 s3 s4 s5 : CheckStatus) :
    (statusCombine s1 s2 s3 s4 s5 = .error ↔
      (s1 = .fail ∨ s2 = .fail ∨ s3 = .fail ∨ s4 = .fail ∨ s5 = .fail))
    ∧ (statusCombine s1 s2 s3 s4 s5 = .warning ↔
      (¬ (s1 = .fail ∨ s2 = .fail ∨ s3 = .fail ∨ s4 = .fail ∨ s5 = .fail)
        ∧ (s1 = .warn ∨ s2 = .warn ∨ s3 = .warn ∨ s4 = .warn ∨ s5 = .warn)))
    ∧ (statusCombine s1 s2 s3 s4 s5 = .healthy ↔
      (¬ (s1 = .fail ∨ s2 = .fail ∨ s3 = .fail ∨ s4 = .fail ∨ s5 = .fail)
        ∧ ¬ (s1 = .warn ∨ s2 = .warn ∨ s3 = .warn ∨ s4 = .warn ∨ s5 = .warn))) := by
  cases s1 <;> cases s2 <;> cases s3 <;> cases s4 <;> cases s5 <;> decide

/-- C1.  For every environment and every (provider, modelId, metadata)
input, the overall status returned by checkModel is error iff at
least one of the five sub-checks has status fail; otherwise it is
warning iff at least one sub-check has status warn; otherwise it is
healthy. -/
theorem checkModel_overall_status (env : HealthEnv) (provider modelId : String)
    (customMetadata : Option CustomModelMetadata) (now : Int) :
    ((checkModel env provider modelId customMetadata now).status = .error ↔
      ((checkModel env provider modelId customMetadata now).checks.authentication.status = .fail
        ∨ (checkModel env provider modelId customMetadata now).checks.modelExists.status = .fail
        ∨ (checkModel env provider modelId customMetadata now).checks.tokenLimits.status = .fail
        ∨ (checkModel env provider modelId customMetadata now).checks.pricing.status = .fail
        ∨ (checkModel env provider modelId customMetadata now).checks.connectivity.status = .fail))
    ∧ ((checkModel env provider modelId customMetadata now).status = .warning ↔
      (¬ ((checkModel env provider modelId customMetadata now).checks.authentication.status = .fail
        ∨ (checkModel env provider modelId customMetadata now).checks.modelExists.status = .fail
        ∨ (checkModel env provider modelId customMetadata now).checks.tokenLimits.status = .fail
        ∨ (checkModel env provider modelId customMetadata now).checks.pricing.status = .fail
        ∨ (checkModel env provider modelId customMetadata now).checks.connectivity.status = .fail)
      ∧ ((checkModel env provider modelId customMetadata now).checks.authentication.status = .warn
        ∨ (checkModel env provider modelId customMetadata now).checks.modelExists.status = .warn
        ∨ (checkModel env provider modelId customMetadata now).checks.tokenLimits.status = .warn
        ∨ (checkModel env provider modelId customMetadata now).checks.pricing.status = .warn
        ∨ (checkModel env provider modelId customMetadata now).checks.connectivity.status = .warn)))
    ∧ ((checkModel env provider modelId customMetadata now).status = .healthy ↔
      (¬ ((checkModel env provider modelId customMetadata now).checks.authentication.status = .fail
        ∨ (checkModel env provider modelId customMetadata now).checks.modelExists.status = .fail
        ∨ (checkModel env provider modelId customMetadata now).checks.tokenLimits.status = .fail
        ∨ (checkModel env provider modelId customMetadata now).checks.pricing.status = .fail
        ∨ (checkModel env provider modelId customMetadata now).checks.connectivity.status = .fail)
      ∧ ¬ ((checkModel env provider modelId customMetadata now).checks.authentication.status = .warn
        ∨ (checkModel env provider modelId customMetadata now).checks.modelExists.status = .warn
        ∨ (checkModel env provider modelId customMetadata now).checks.tokenLimits.status = .warn
        ∨ (checkModel env provider modelId customMetadata now).checks.pricing.status = .warn
        ∨ (checkModel env provider modelId customMetadata now).checks.connectivity.status = .warn))) :=
  statusCombine_spec (checkAuthentication env provider).status
    (checkModelExists env provider modelId).status
    (checkTokenLimits customMetadata).status
    (checkPricing customMetadata).status
    (checkConnectivity env provider).status

/-
C10.  Zero-valued metadata fields are treated as unset.
-/

theorem numTruthy_eq_false (o : Option ℚ) : numTruthy o = false ↔ zeroOrAbsent o := by
  cases o with
  | none => simp [numTruthy, zeroOrAbsent]
  | some q =>
      by_cases h : q = 0 <;> simp [numTruthy, zeroOrAbsent, h]

theorem checkTokenLimits_skip_iff (md : CustomModelMetadata) :
    (checkTokenLimits (some md)).status = .skip ↔
      (numTruthy md.maxInputTokens = false ∧ numTruthy md.maxOutputTokens = false) := by
  rw [checkTokenLimits]
  by_cases h : ¬ numTruthy md.maxInputTokens = true ∧ ¬ numTruthy md.maxOutputTokens = true
  · rw [if_pos h]
    simp only [Bool.not_eq_true] at h
    simp [h.1, h.2]
  · rw [if_neg h]
    constructor
    · intro hs
      exfalso
      revert hs
      dsimp only
      split_ifs <;> simp
    · intro hz
      exact absurd ⟨by simp [hz.1], by simp [hz.2]⟩ h

theorem checkPricing_skip_iff (md : CustomModelMetadata) :
    (checkPricing (some md)).status = .skip ↔
      (numTruthy md.inputCostPerToken = false ∧ numTruthy md.outputCostPerToken = false) := by
  rw [checkPricing]
  by_cases h : ¬ numTruthy md.inputCostPerToken = true ∧ ¬ numTruthy md.outputCostPerToken = true
  · rw [if_pos h]
    simp only [Bool.not_eq_true] at h
    simp [h.1, h.2]
  · rw [if_neg h]
    constructor
    · intro hs
      exfalso
      revert hs
      dsimp only
      split_ifs <;> simp
    · intro hz
      exact absurd ⟨by simp [hz.1], by simp [hz.2]⟩ h

/-- C10.  In the health checker a configured numeric value of 0 is
treated as unset: checkPricing returns skip iff inputCostPerToken and
outputCostPerToken are each absent or 0, checkTokenLimits returns
skip iff maxInputTokens and maxOutputTokens are each absent or 0, and
a 0 value is excluded from the comparison warnings: pricing with
input cost 5 and output cost 0 passes even though the input cost
exceeds the output cost, and token limits 0 and 5000 pass even though
the output limit exceeds the input limit. -/
theorem healthChecker_zero_is_unset (customMetadata : Option CustomModelMetadata) :
    ((checkTokenLimits customMetadata).status = .skip ↔
      (zeroOrAbsent (customMetadata.bind (fun m => m.maxInputTokens))
        ∧ zeroOrAbsent (customMetadata.bind (fun m => m.maxOutputTokens))))
    ∧ ((checkPricing customMetadata).status = .skip ↔
      (zeroOrAbsent (customMetadata.bind (fun m => m.inputCostPerToken))
        ∧ zeroOrAbsent (customMetadata.bind (fun m => m.outputCostPerToken))))
    ∧ (checkPricing (some ⟨none, none, some 5, some 0⟩)).status = .pass
    ∧ (checkTokenLimits (some ⟨some 0, some 5000, none, none⟩)).status = .pass := by
  refine ⟨?_, ?_, by decide, by decide⟩
  · cases customMetadata with
    | none => simp [checkTokenLimits, zeroOrAbsent]
    | some md =>
        rw [checkTokenLimits_skip_iff]
        simp only [Option.some_bind, numTruthy_eq_false]
  · cases customMetadata with
    | none => simp [checkPricing, zeroOrAbsent]
    | some md =>
        rw [checkPricing_skip_iff]
        simp only [Option.some_bind, numTruthy_eq_false]

/-
C5.  Versioned JSON store reads.
-/

/-- C5 counterexample.  The claim states that both versioned stores
reset to the version-tagged empty default on a version-tag mismatch,
but ModelPresetsService.readFile performs no version check: a parsed
presets file tagged version 2 is returned unchanged, not replaced by
the empty default. -/
theorem presetsReadFile_ignores_version :
    presetsReadFile (.parsed (.obj [("version", .num 2), ("presets", .arr [])]))
        = .obj [("version", .num 2), ("presets", .arr [])]
    ∧ .obj [("version", Json.num 2), ("presets", .arr [])] ≠ emptyPresetsJson := by
  exact ⟨rfl, by decide⟩

/-- C5 (amended).  The cost-history read returns the parsed contents
when the version tag equals 1 and the version-tagged empty default
when the file is missing, unparsable, or tagged otherwise; the
presets read returns the empty default when the file is missing or
unparsable but returns any parsed contents unchanged, without
checking the version tag. -/
theorem versioned_read_defaults :
    costRead .missing = emptyCostJson
    ∧ costRead .unparsable = emptyCostJson
    ∧ (∀ j : Json, j.getField "version" ≠ some (.num 1) →
        costRead (.parsed j) = emptyCostJson)
    ∧ (∀ j : Json, j.getField "version" = some (.num 1) →
        costRead (.parsed j) = j)
    ∧ presetsReadFile .missing = emptyPresetsJson
    ∧ presetsReadFile .unparsable = emptyPresetsJson
    ∧ (∀ j : Json, presetsReadFile (.parsed j) = j) := by
  refine ⟨rfl, rfl, ?_, ?_, rfl, rfl, fun j => rfl⟩
  · intro j h
    simp [costRead, h]
  · intro j h
    simp [costRead, h]

/-- C5 witness for the amended theorem: a cost-history file tagged
version 3 is replaced by the empty default, one tagged version 1 is
returned unchanged. -/
theorem versioned_read_defaults_witness :
    (Json.obj [("version", .num 3)]).getField "version" ≠ some (.num 1)
    ∧ costRead (.parsed (.obj [("version", .num 3)])) = emptyCostJson
    ∧ (Json.obj [("version", .num 1)]).getField "version" = some (.num 1)
    ∧ costRead (.parsed (.obj [("version", .num 1)])) = .obj [("version", .num 1)] :=
  ⟨by decide,
   (versioned_read_defaults).2.2.1 (.obj [("version", .num 3)]) (by decide),
   by decide,
   (versioned_read_defaults).2.2.2.1 (.obj [("version", .num 1)]) (by decide)⟩

/-
C6.  Icon file path traversal guard.
-/

/-- C6.  The traversal guard of getIconFile is a string-prefix check
on the resolved path, so a request can escape the theme root through
a sibling directory whose name extends the root name: with the theme
rooted at /themes/a, the icon path ../a-evil/x.svg resolves to
/themes/a-evil/x.svg, which lies outside the root, yet the guard
passes and the file contents are returned instead of null. -/
theorem getIconFile_sibling_escape :
    getIconFile (some { activeThemeId := DEFAULT_MUP_THEME_ID, installedThemes := [cxTheme] })
        cxFileSystem "pub.a" "../a-evil/x.svg" = some ("SECRET", "image/svg+xml")
    ∧ pathResolve cxTheme.themeDir "../a-evil/x.svg" = "/themes/a-evil/x.svg"
    ∧ insideDir (normalizeAbs cxTheme.themeDir)
        (pathResolve cxTheme.themeDir "../a-evil/x.svg") = false := by
  exact ⟨by decide, by decide, by decide⟩

/-
C8.  savePreset followed by getPreset.
-/

/-- C8.  Whenever the freshly generated id differs from every stored
preset id, savePreset followed by getPreset of that id yields exactly
the saved preset, whose name, description and models equal the input
and whose createdAt equals its updatedAt. -/
theorem savePreset_getPreset (file : ModelPresetsFile) (freshId : String) (now : Int)
    (name : String) (models : List PresetModelEntry) (description : Option String)
    (hfresh : freshId ∉ file.presets.map (fun p => p.id)) :
    getPreset (savePreset file freshId now name models description).2 freshId
        = some (savePreset file freshId now name models description).1
    ∧ (savePreset file freshId now name models description).1.name = name
    ∧ (savePreset file freshId now name models description).1.description = description
    ∧ (savePreset file freshId now name models description).1.models = models
    ∧ (savePreset file freshId now name models description).1.createdAt
        = (savePreset file freshId now name models description).1.updatedAt := by
  refine ⟨?_, rfl, rfl, rfl, rfl⟩
  unfold getPreset savePreset
  rw [List.find?_append]
  have hnone : file.presets.find? (fun p => p.id == freshId) = none := by
    rw [List.find?_eq_none]
    intro p hp
    simp only [beq_iff_eq]
    intro hid
    exact hfresh (by simpa [← hid] using List.mem_map_of_mem (fun q => q.id) hp)
  rw [hnone]
  simp

/-- C8 witness: saving a preset into a store holding one preset with
a different id and reading it back. -/
theorem savePreset_getPreset_witness :
    "id-2" ∉ (⟨[⟨"id-1", "old", none, 0, 0, []⟩]⟩ : ModelPresetsFile).presets.map
        (fun p => p.id)
    ∧ (getPreset (savePreset ⟨[⟨"id-1", "old", none, 0, 0, []⟩]⟩ "id-2" 7 "mine"
          [⟨"anthropic", "claude", none⟩] (some "d")).2 "id-2"
        = some (savePreset ⟨[⟨"id-1", "old", none, 0, 0, []⟩]⟩ "id-2" 7 "mine"
          [⟨"anthropic", "claude", none⟩] (some "d")).1) :=
  ⟨by decide,
   (savePreset_getPreset ⟨[⟨"id-1", "old", none, 0, 0, []⟩]⟩ "id-2" 7 "mine"
      [⟨"anthropic", "claude", none⟩] (some "d")
      (by decide)).1⟩

/-
C9.  Failed imports leave the store untouched.
-/

/-- C9.  Whenever importPresets returns a failure result, nothing is
persisted: the operation yields no written file, so the stored preset
list is unchanged. -/
theorem importPresets_failure_no_write (parsed : Option Json) (idStream : Nat → String)
    (now : Int) (file : ModelPresetsFile) (e : String)
    (hfail : (importPresets parsed idStream now file).1 = .err e) :
    (importPresets parsed idStream now file).2 = none := by
  cases parsed with
  | none => rfl
  | some j =>
      rw [importPresets] at hfail ⊢
      by_cases h1 : ¬ (j.jsTruthy && j.jsTypeofObject) = true
      · rw [if_pos h1]
      · rw [if_neg h1] at hfail ⊢
        cases hp : j.getField "presets" with
        | none => simp [hp]
        | some v =>
            cases v with
            | arr rawPresets =>
                simp only [hp] at hfail ⊢
                by_cases h2 : assignIds idStream now 0 (rawPresets.filterMap importPresetRaw) = []
                · rw [if_pos h2]
                · rw [if_neg h2] at hfail
                  exact absurd hfail (by simp)
            | null => simp [hp]
            | bool b => simp [hp]
            | num q => simp [hp]
            | str s => simp [hp]
            | obj fields => simp [hp]

/-- C9 witness: an unparsable import payload fails and writes
nothing. -/
theorem importPresets_failure_no_write_witness :
    (importPresets none (fun _ => "u") 0 emptyPresetsFile).1 = .err "Invalid JSON"
    ∧ (importPresets none (fun _ => "u") 0 emptyPresetsFile).2 = none :=
  ⟨rfl, importPresets_failure_no_write none (fun _ => "u") 0 emptyPresetsFile "Invalid JSON" rfl⟩

/-
C3.  pruneOldEntries.
-/

/-- C3 counterexample.  The claim asserts that daily summaries of
fully-pruned dates are removed, but a prune whose cutoff falls in the
middle of a day can remove every entry of the cutoff date while
keeping that date key: recording one entry at timestamp 0 and pruning
with retention 90 at now = 90 days + 1 ms (cutoff = 1 ms, cutoff date
= day 0) removes the only entry of day 0 yet retains the summary
bucket of day 0. -/
theorem pruneOldEntries_keeps_fully_pruned_date :
    entriesOn 0 cxState.entries ≠ []
    ∧ entriesOn 0 (pruneOldEntries cxState 90 7776000001).state.entries = []
    ∧ getAssoc (pruneOldEntries cxState 90 7776000001).state.dailySummaries 0 ≠ none := by
  refine ⟨by decide, by decide, by decide⟩

/-- C3 (amended).  pruneOldEntries removes exactly the entries with
timestamp below now - retentionDays * 86400000 and no others, removes
exactly the daily-summary keys strictly older than the cutoff date
(the summary of the cutoff date itself is retained even when all its
entries were pruned) leaving retained keys unchanged, returns the
number of entries removed, and persists the file exactly when at
least one entry was removed. -/
theorem pruneOldEntries_spec (st : CostHistoryFile) (retentionDays now : Int) :
    (∀ e, e ∈ (pruneOldEntries st retentionDays now).state.entries ↔
      (e ∈ st.entries ∧ ¬ e.timestamp < now - retentionDays * 86400000))
    ∧ (∀ d, d < dateKey (now - retentionDays * 86400000) →
        getAssoc (pruneOldEntries st retentionDays now).state.dailySummaries d = none)
    ∧ (∀ d, ¬ d < dateKey (now - retentionDays * 86400000) →
        getAssoc (pruneOldEntries st retentionDays now).state.dailySummaries d
          = getAssoc st.dailySummaries d)
    ∧ (pruneOldEntries st retentionDays now).pruned
        = (st.entries.filter (fun e => decide (e.timestamp < now - retentionDays * 86400000))).length
    ∧ ((pruneOldEntries st retentionDays now).wrote = true ↔
        0 < (pruneOldEntries st retentionDays now).pruned) := by
  refine ⟨?_, ?_, ?_, ?_, ?_⟩
  · intro e
    rw [pruneOldEntries]
    simp only [List.mem_filter, decide_eq_true_iff]
    exact ⟨fun h => ⟨h.1, not_lt.mpr h.2⟩, fun h => ⟨h.1, not_lt.mp h.2⟩⟩
  · intro d hd
    rw [pruneOldEntries]
    simp only
    rw [getAssoc_filter st.dailySummaries
      (fun k => decide (¬ k < dateKey (now - retentionDays * 86400000))) d]
    simp [hd]
  · intro d hd
    rw [pruneOldEntries]
    simp only
    rw [getAssoc_filter st.dailySummaries
      (fun k => decide (¬ k < dateKey (now - retentionDays * 86400000))) d]
    simp [hd]
  · rw [pruneOldEntries]
    simp only
    have hsplit := length_filter_not_add st.entries
      (fun e => decide (now - retentionDays * 86400000 ≤ e.timestamp))
    have hcongr : st.entries.filter
        (fun e => ! decide (now - retentionDays * 86400000 ≤ e.timestamp))
        = st.entries.filter (fun e => decide (e.timestamp < now - retentionDays * 86400000)) := by
      apply List.filter_congr
      intro e _
      by_cases h : now - retentionDays * 86400000 ≤ e.timestamp
      · simp [h, not_lt.mpr h]
      · simp [h, not_le.mp h]
    rw [hcongr] at hsplit
    omega
  · rw [pruneOldEntries]
    simp [decide_eq_true_iff]

/-
C2.  Daily summary consistency invariant.
-/

/-- C2 counterexample.  After recording one entry at timestamp 0 and
pruning with a cutoff of 1 ms (not a day boundary), the summary of
day 0 survives with totalCost 1 although no entry of day 0 remains,
so the summary no longer equals the sums over the matching log
entries. -/
theorem summariesConsistent_broken_by_midday_prune :
    ¬ summariesConsistent
      (List.foldl applyCostOp emptyCostFile [.record cxEntry, .prune 90 7776000001]) := by
  intro h
  have h1 : (getAssoc
      (List.foldl applyCostOp emptyCostFile
        [.record cxEntry, .prune 90 7776000001]).dailySummaries 0).map
      (fun s => s.requestCount) = some 1 := by decide
  have hentries : entriesOn 0
      (List.foldl applyCostOp emptyCostFile [.record cxEntry, .prune 90 7776000001]).entries
      = [] := by decide
  cases hs : getAssoc
      (List.foldl applyCostOp emptyCostFile
        [.record cxEntry, .prune 90 7776000001]).dailySummaries 0 with
  | none => rw [hs] at h1; exact absurd h1 (by simp)
  | some s =>
      rw [hs] at h1
      simp only [Option.map_some'] at h1
      have h2 := (h 0 s hs).2.1
      rw [hentries] at h2
      simp only [List.length_nil] at h2
      rw [Option.some.injEq] at h1
      omega

theorem prune_state_entries (st : CostHistoryFile) (retentionDays now : Int) :
    (pruneOldEntries st retentionDays now).state.entries
      = st.entries.filter (fun e => decide (now - retentionDays * 86400000 ≤ e.timestamp)) := rfl

theorem prune_state_summaries (st : CostHistoryFile) (retentionDays now : Int) :
    (pruneOldEntries st retentionDays now).state.dailySummaries
      = st.dailySummaries.filter
          (fun p => decide (¬ p.1 < dateKey (now - retentionDays * 86400000))) := rfl

theorem cutoff_le_iff (cutoff t : Int) (hal : cutoff % 86400000 = 0) :
    cutoff ≤ t ↔ dateKey cutoff ≤ dateKey t := by
  have hD : (0 : Int) < 86400000 := by norm_num
  constructor
  · intro h
    exact Int.ediv_le_ediv hD h
  · intro h
    have h2 := (Int.le_ediv_iff_mul_le hD).mp h
    have h3 := Int.ediv_add_emod cutoff 86400000
    unfold dateKey at h2
    omega

theorem lt_cutoff_iff (cutoff t : Int) (hal : cutoff % 86400000 = 0) :
    t < cutoff ↔ dateKey t < dateKey cutoff := by
  rw [← not_le, ← not_le]
  exact not_congr (cutoff_le_iff cutoff t hal)

theorem entriesOn_append (d : Int) (es : List CostEntry) (e : CostEntry) :
    entriesOn d (es ++ [e])
      = entriesOn d es ++ (if dateKey e.timestamp = d then [e] else []) := by
  unfold entriesOn
  rw [List.filter_append]
  by_cases h : dateKey e.timestamp = d <;> simp [h]

theorem entriesOn_filter_cutoff (es : List CostEntry) (cutoff d : Int)
    (hal : cutoff % 86400000 = 0) :
    entriesOn d (es.filter (fun e => decide (cutoff ≤ e.timestamp)))
      = if dateKey cutoff ≤ d then entriesOn d es else [] := by
  unfold entriesOn
  rw [List.filter_filter]
  by_cases hcd : dateKey cutoff ≤ d
  · rw [if_pos hcd]
    apply List.filter_congr
    intro e _
    by_cases he : dateKey e.timestamp = d
    · have hle : cutoff ≤ e.timestamp :=
        (cutoff_le_iff cutoff e.timestamp hal).mpr (by rw [he]; exact hcd)
      simp [he, hle]
    · simp [he]
  · rw [if_neg hcd]
    rw [List.filter_eq_nil_iff]
    intro e _
    by_cases he : dateKey e.timestamp = d
    · have hlt : e.timestamp < cutoff :=
        (lt_cutoff_iff cutoff e.timestamp hal).mpr (by rw [he]; exact not_le.mp hcd)
      simp [he, not_le.mpr hlt]
    · simp [he]

theorem aggOf_append_self (l : List CostEntry) (e : CostEntry) :
    aggOf (l ++ [e]) e.model
      = { cost := (aggOf l e.model).cost + e.cost
          requests := (aggOf l e.model).requests + 1
          tokens := (aggOf l e.model).tokens + entryTokens e } := by
  simp [aggOf, List.filter_append]

theorem aggOf_append_ne (l : List CostEntry) (e : CostEntry) (m : String)
    (h : ¬ e.model = m) :
    aggOf (l ++ [e]) m = aggOf l m := by
  simp [aggOf, List.filter_append, h]

theorem costInvariant_empty : costInvariant emptyCostFile := by
  intro d
  constructor
  · intro _
    rfl
  · intro s hs
    simp [getAssoc, emptyCostFile] at hs

theorem costInvariant_record (st : CostHistoryFile) (e : CostEntry)
    (h : costInvariant st) : costInvariant (recordCost st e) := by
  intro d
  have hsum : (recordCost st e).dailySummaries
      = setAssoc st.dailySummaries (dateKey e.timestamp)
          (let summary := (getAssoc st.dailySummaries (dateKey e.timestamp)).getD
            (emptySummary (dateKey e.timestamp))
           let modelSummary := (getAssoc summary.byModel e.model).getD
            { cost := 0, requests := 0, tokens := 0 }
           { summary with
             totalCost := summary.totalCost + e.cost
             requestCount := summary.requestCount + 1
             byModel := setAssoc summary.byModel e.model
               { cost := modelSummary.cost + e.cost
                 requests := modelSummary.requests + 1
                 tokens := modelSummary.tokens + entryTokens e } }) := rfl
  have hent : (recordCost st e).entries = st.entries ++ [e] := rfl
  by_cases hd : dateKey e.timestamp = d
  · constructor
    · intro hnone
      rw [hsum, ← hd, getAssoc_setAssoc_self] at hnone
      exact absurd hnone (by simp)
    · intro s hs
      rw [hsum, ← hd, getAssoc_setAssoc_self, Option.some.injEq] at hs
      subst hs
      rw [hent, ← hd]
      rw [entriesOn_append, if_pos rfl]
      cases hb : getAssoc st.dailySummaries (dateKey e.timestamp) with
      | none =>
          have hempty : entriesOn (dateKey e.timestamp) st.entries = [] :=
            ((h (dateKey e.timestamp)).1) hb
          rw [hempty]
          simp only [hb, Option.getD_none, List.nil_append]
          refine ⟨rfl, by simp [emptySummary], by simp [emptySummary], ?_⟩
          intro m
          by_cases hm : e.model = m
          · subst hm
            rw [emptySummary]
            simp only [getAssoc_setAssoc_self, Option.getD_some]
            simp [aggOf, getAssoc, entryTokens]
          · rw [emptySummary]
            simp only
            rw [getAssoc_setAssoc_ne _ _ _ _ hm]
            simp only [getAssoc, Option.getD_none]
            simp [aggOf, hm]
      | some s0 =>
          have hs0 := ((h (dateKey e.timestamp)).2) s0 hb
          simp only [hb, Option.getD_some]
          refine ⟨hs0.1, ?_, ?_, ?_⟩
          · rw [List.map_append, List.sum_append, ← hs0.2.1]
            simp
          · rw [List.length_append, ← hs0.2.2.1]
            simp
          · intro m
            by_cases hm : e.model = m
            · subst hm
              simp only [getAssoc_setAssoc_self, Option.getD_some]
              rw [aggOf_append_self, ← hs0.2.2.2 e.model]
            · rw [getAssoc_setAssoc_ne _ _ _ _ hm]
              rw [aggOf_append_ne _ _ _ hm]
              exact hs0.2.2.2 m
  · constructor
    · intro hnone
      rw [hsum, getAssoc_setAssoc_ne _ _ _ _ hd] at hnone
      rw [hent, entriesOn_append, if_neg hd]
      simp [(h d).1 hnone]
    · intro s hs
      rw [hsum, getAssoc_setAssoc_ne _ _ _ _ hd] at hs
      rw [hent, entriesOn_append, if_neg hd]
      simp only [List.append_nil]
      exact (h d).2 s hs

theorem costInvariant_prune (st : CostHistoryFile) (retentionDays now : Int)
    (h : costInvariant st)
    (hal : (now - retentionDays * 86400000) % 86400000 = 0) :
    costInvariant (applyCostOp st (.prune retentionDays now)) := by
  rw [applyCostOp]
  by_cases hw : (pruneOldEntries st retentionDays now).wrote
  · rw [if_pos hw]
    intro d
    constructor
    · intro hnone
      rw [prune_state_entries]
      rw [entriesOn_filter_cutoff st.entries (now - retentionDays * 86400000) d hal]
      by_cases hcd : dateKey (now - retentionDays * 86400000) ≤ d
      · rw [if_pos hcd]
        rw [prune_state_summaries] at hnone
        rw [getAssoc_filter st.dailySummaries
          (fun k => decide (¬ k < dateKey (now - retentionDays * 86400000))) d] at hnone
        rw [if_pos (by simpa using not_lt.mpr hcd)] at hnone
        exact (h d).1 hnone
      · rw [if_neg hcd]
    · intro s hs
      rw [prune_state_summaries] at hs
      rw [getAssoc_filter st.dailySummaries
        (fun k => decide (¬ k < dateKey (now - retentionDays * 86400000))) d] at hs
      by_cases hcd : d < dateKey (now - retentionDays * 86400000)
      · rw [if_neg (by simpa using hcd)] at hs
        exact absurd hs (by simp)
      · rw [if_pos (by simpa using hcd)] at hs
        rw [prune_state_entries]
        rw [entriesOn_filter_cutoff st.entries (now - retentionDays * 86400000) d hal]
        rw [if_pos (not_lt.mp hcd)]
        exact (h d).2 s hs
  · rw [if_neg hw]
    exact h

theorem costInvariant_foldl (ops : List CostOp) (hal : ∀ op ∈ ops, dayAligned op)
    (st : CostHistoryFile) (h : costInvariant st) :
    costInvariant (ops.foldl applyCostOp st) := by
  induction ops generalizing st with
  | nil => exact h
  | cons op rest ih =>
      rw [List.foldl_cons]
      refine ih (fun o ho => hal o (List.mem_cons_of_mem _ ho)) _ ?_
      cases op with
      | record e => exact costInvariant_record st e h
      | prune retentionDays now =>
          exact costInvariant_prune st retentionDays now h (hal _ (List.mem_cons_self _ _))

/-- C2 (amended).  For every store state reachable from the empty
cost-history file by recordCost calls and by pruneOldEntries calls
whose cutoff falls on a UTC day boundary, each daily summary agrees,
in totalCost, requestCount and every per-model subtotal, with the
sums over exactly the log entries whose calendar date matches the
summary key; a prune whose cutoff falls mid-day can break the
consistency for the cutoff date itself. -/
theorem costHistory_summariesConsistent (ops : List CostOp)
    (hal : ∀ op ∈ ops, dayAligned op) :
    summariesConsistent (ops.foldl applyCostOp emptyCostFile) := by
  intro d s hs
  exact (((costInvariant_foldl ops hal emptyCostFile costInvariant_empty) d).2 s hs).2

/-- C2 witness: one recorded entry followed by a day-boundary prune. -/
theorem costHistory_summariesConsistent_witness :
    (∀ op ∈ [CostOp.record cxEntry, CostOp.prune 90 (91 * 86400000)], dayAligned op)
    ∧ summariesConsistent
        (List.foldl applyCostOp emptyCostFile
          [CostOp.record cxEntry, CostOp.prune 90 (91 * 86400000)]) :=
  ⟨by decide,
   costHistory_summariesConsistent [CostOp.record cxEntry, CostOp.prune 90 (91 * 86400000)]
     (by decide)⟩

/-
C4.  recordCost additivity.
-/

theorem totalCostAt_record (st : CostHistoryFile) (e : CostEntry) :
    totalCostAt (recordCost st e) (dateKey e.timestamp)
      = totalCostAt st (dateKey e.timestamp) + e.cost := by
  unfold totalCostAt recordCost
  simp only [getAssoc_setAssoc_self, Option.getD_some]

theorem requestCountAt_record (st : CostHistoryFile) (e : CostEntry) :
    requestCountAt (recordCost st e) (dateKey e.timestamp)
      = requestCountAt st (dateKey e.timestamp) + 1 := by
  unfold requestCountAt recordCost
  simp only [getAssoc_setAssoc_self, Option.getD_some]

theorem totalCostAt_record_ne (st : CostHistoryFile) (e : CostEntry) (d : Int)
    (hd : ¬ dateKey e.timestamp = d) :
    totalCostAt (recordCost st e) d = totalCostAt st d := by
  unfold totalCostAt recordCost
  simp only [getAssoc_setAssoc_ne _ _ _ _ hd]

theorem requestCountAt_record_ne (st : CostHistoryFile) (e : CostEntry) (d : Int)
    (hd : ¬ dateKey e.timestamp = d) :
    requestCountAt (recordCost st e) d = requestCountAt st d := by
  unfold requestCountAt recordCost
  simp only [getAssoc_setAssoc_ne _ _ _ _ hd]

theorem aggAt_record (st : CostHistoryFile) (e : CostEntry) (m : String) :
    aggAt (recordCost st e) (dateKey e.timestamp) m
      = if e.model = m then
          { cost := (aggAt st (dateKey e.timestamp) m).cost + e.cost
            requests := (aggAt st (dateKey e.timestamp) m).requests + 1
            tokens := (aggAt st (dateKey e.timestamp) m).tokens + entryTokens e }
        else aggAt st (dateKey e.timestamp) m := by
  unfold aggAt recordCost
  simp only [getAssoc_setAssoc_self, Option.getD_some]
  by_cases hm : e.model = m
  · subst hm
    simp only [getAssoc_setAssoc_self, Option.getD_some, if_pos rfl]
    simp
  · rw [if_neg hm, getAssoc_setAssoc_ne _ _ _ _ hm]

theorem aggOf_cons (e : CostEntry) (es : List CostEntry) (m : String) :
    aggOf (e :: es) m
      = if e.model = m then
          { cost := e.cost + (aggOf es m).cost
            requests := 1 + (aggOf es m).requests
            tokens := entryTokens e + (aggOf es m).tokens }
        else aggOf es m := by
  by_cases hm : e.model = m
  · simp only [aggOf, List.filter_cons, hm, if_pos rfl]
    simp [hm]
    omega
  · simp [aggOf, List.filter_cons, hm]

/-- C4.  recordCost is additive: starting from any state, after any
number of recordCost calls whose entries all fall on one calendar
date, the totalCost of the summary of that date has increased by the
sum of the costs of the recorded entries, its requestCount by their
number, and every per-model subtotal by the cost, request count and
token total (input + output + cached + reasoning) of the recorded
entries of that model. -/
theorem recordCost_additive (st : CostHistoryFile) (es : List CostEntry) (d : Int)
    (hd : ∀ e ∈ es, dateKey e.timestamp = d) :
    totalCostAt (es.foldl recordCost st) d
        = totalCostAt st d + (es.map (fun e => e.cost)).sum
    ∧ requestCountAt (es.foldl recordCost st) d = requestCountAt st d + es.length
    ∧ ∀ m, aggAt (es.foldl recordCost st) d m = aggPlus (aggAt st d m) (aggOf es m) := by
  induction es generalizing st with
  | nil =>
      refine ⟨by simp, by simp, ?_⟩
      intro m
      simp [aggOf, aggPlus]
  | cons e rest ih =>
      have hde : dateKey e.timestamp = d := hd e (List.mem_cons_self _ _)
      have hrest : ∀ x ∈ rest, dateKey x.timestamp = d :=
        fun x hx => hd x (List.mem_cons_of_mem _ hx)
      obtain ⟨ihc, ihr, ihm⟩ := ih (recordCost st e) hrest
      rw [List.foldl_cons]
      refine ⟨?_, ?_, ?_⟩
      · rw [ihc, ← hde, totalCostAt_record, hde]
        rw [List.map_cons, List.sum_cons]
        ring
      · rw [ihr, ← hde, requestCountAt_record, hde]
        rw [List.length_cons]
        omega
      · intro m
        rw [ihm m, ← hde, aggAt_record, hde, aggOf_cons]
        by_cases hm : e.model = m
        · rw [if_pos hm, if_pos hm]
          simp only [aggPlus, ModelAgg.mk.injEq]
          refine ⟨by ring, by omega, by omega⟩
        · rw [if_neg hm, if_neg hm]

/-- C4 witness: two entries of the same model on day 0 recorded into
the empty store. -/
theorem recordCost_additive_witness :
    (∀ e ∈ [cxEntry, cxEntry], dateKey e.timestamp = 0)
    ∧ (totalCostAt (List.foldl recordCost emptyCostFile [cxEntry, cxEntry]) 0
        = totalCostAt emptyCostFile 0 + ([cxEntry, cxEntry].map (fun e => e.cost)).sum
      ∧ requestCountAt (List.foldl recordCost emptyCostFile [cxEntry, cxEntry]) 0
        = requestCountAt emptyCostFile 0 + 2
      ∧ ∀ m, aggAt (List.foldl recordCost emptyCostFile [cxEntry, cxEntry]) 0 m
        = aggPlus (aggAt emptyCostFile 0 m) (aggOf [cxEntry, cxEntry] m)) :=
  ⟨by decide, recordCost_additive emptyCostFile [cxEntry, cxEntry] 0 (by decide)⟩

/-
C7.  Export followed by import.
-/

theorem importModelEntry_encode (m : PresetModelEntry) :
    importModelEntry (encodeModelEntry m) = some m := by
  obtain ⟨provider, modelId, metadata⟩ := m
  cases metadata with
  | none => rfl
  | some j => rfl

theorem importModels_encode (ms : List PresetModelEntry) :
    importModels (ms.map encodeModelEntry) = ms := by
  rw [importModels, List.filterMap_map]
  rw [show (importModelEntry ∘ encodeModelEntry) = some ∘ id from
    funext (fun m => importModelEntry_encode m)]
  rw [List.filterMap_eq_map]
  exact List.map_id ms

theorem importPresetRaw_encode (p : ModelPreset) :
    importPresetRaw (encodePreset p) = some (p.name, p.description, p.models) := by
  obtain ⟨id, name, description, createdAt, updatedAt, models⟩ := p
  cases description with
  | none =>
      have h1 : importPresetRaw (encodePreset ⟨id, name, none, createdAt, updatedAt, models⟩)
          = some (name, none, importModels (models.map encodeModelEntry)) := rfl
      rw [h1, importModels_encode]
  | some d =>
      have h1 : importPresetRaw (encodePreset ⟨id, name, some d, createdAt, updatedAt, models⟩)
          = some (name, some d, importModels (models.map encodeModelEntry)) := rfl
      rw [h1, importModels_encode]

theorem filterMap_import_encode (l : List ModelPreset) :
    (l.map encodePreset).filterMap importPresetRaw
      = l.map (fun p => (p.name, p.description, p.models)) := by
  rw [List.filterMap_map]
  have hfun : (importPresetRaw ∘ encodePreset)
      = (some ∘ fun p : ModelPreset => (p.name, p.description, p.models)) :=
    funext (fun p => importPresetRaw_encode p)
  rw [hfun, List.filterMap_eq_map]

theorem assignIds_map_triple (idStream : Nat → String) (now : Int) :
    ∀ (l : List ModelPreset) (k : Nat),
      assignIds idStream now k (l.map (fun p => (p.name, p.description, p.models)))
        = freshImportsOf idStream now k l := by
  intro l
  induction l with
  | nil => intro k; rfl
  | cons p rest ih =>
      intro k
      simp only [List.map_cons, assignIds, freshImportsOf, ih]

theorem freshImportsOf_mem (idStream : Nat → String) (now : Int) :
    ∀ (l : List ModelPreset) (k : Nat) (q : ModelPreset),
      q ∈ freshImportsOf idStream now k l → ∃ i, i < l.length ∧ q.id = idStream (k + i) := by
  intro l
  induction l with
  | nil => intro k q hq; cases hq
  | cons p rest ih =>
      intro k q hq
      rw [freshImportsOf] at hq
      rcases List.mem_cons.mp hq with hq | hq
      · refine ⟨0, by simp, ?_⟩
        rw [hq]
        simp
      · obtain ⟨i, hi, hid⟩ := ih (k + 1) q hq
        exact ⟨i + 1, by simpa using hi, by rw [hid]; congr 1; omega⟩

/-- C7 counterexample.  The claim quantifies over every set of stored
presets, but exporting an empty store and importing the result fails:
importPresets rejects an import in which zero entries validated, so
the round trip does not succeed on the empty set. -/
theorem exportImport_empty_fails :
    (importPresets (some (exportPresets emptyPresetsFile none)) (fun _ => "u") 0
        emptyPresetsFile).1 = .err "No valid presets found in import data" := rfl

/-- C7 (amended).  For every nonempty set of stored presets, and
fresh identifiers distinct from the stored ids, exportPresets
followed by importPresets of the produced JSON succeeds and
round-trips every preset name, description and model entry
(provider, modelId and metadata unchanged), while assigning every
imported preset a new id distinct from all ids of the stored
originals. -/
theorem exportImport_roundTrip (file : ModelPresetsFile) (idStream : Nat → String)
    (now : Int) (hne : file.presets ≠ [])
    (hfresh : ∀ i, i < file.presets.length →
      idStream i ∉ file.presets.map (fun p => p.id)) :
    (importPresets (some (exportPresets file none)) idStream now file).1
        = .ok (freshImportsOf idStream now 0 file.presets)
    ∧ (importPresets (some (exportPresets file none)) idStream now file).2
        = some { presets := file.presets ++ freshImportsOf idStream now 0 file.presets }
    ∧ ∀ q ∈ freshImportsOf idStream now 0 file.presets,
        q.id ∉ file.presets.map (fun p => p.id) := by
  have hbody : (importPresets (some (exportPresets file none)) idStream now file)
      = (.ok (freshImportsOf idStream now 0 file.presets),
         some { presets := file.presets ++ freshImportsOf idStream now 0 file.presets }) := by
    rw [importPresets, exportPresets]
    rw [if_neg (by simp [Json.jsTruthy, Json.jsTypeofObject])]
    have hget : (Json.obj [("version", Json.num 1),
        ("presets", Json.arr (file.presets.map encodePreset))]).getField "presets"
        = some (.arr (file.presets.map encodePreset)) := by
      simp only [Json.getField, getAssoc]
      rw [if_neg (by decide : ¬ ("version" : String) = "presets")]
      simp
    rw [hget]
    dsimp only
    rw [filterMap_import_encode, assignIds_map_triple]
    rw [if_neg ?hne2]
    case hne2 =>
      cases hp : file.presets with
      | nil => exact absurd hp hne
      | cons p rest => simp [freshImportsOf]
  refine ⟨by rw [hbody], by rw [hbody], ?_⟩
  intro q hq
  obtain ⟨i, hi, hid⟩ := freshImportsOf_mem idStream now file.presets 0 q hq
  rw [hid, Nat.zero_add]
  exact hfresh i hi

/-- C7 witness: a one-preset store exported and re-imported with a
fresh id. -/
theorem exportImport_roundTrip_witness :
    ((⟨[⟨"old-id", "n", none, 0, 0, [⟨"prov", "mid", none⟩]⟩]⟩ : ModelPresetsFile).presets ≠ []
      ∧ ∀ i, i < (⟨[⟨"old-id", "n", none, 0, 0, [⟨"prov", "mid", none⟩]⟩]⟩ :
          ModelPresetsFile).presets.length →
        (fun _ : Nat => "fresh") i ∉ (⟨[⟨"old-id", "n", none, 0, 0,
          [⟨"prov", "mid", none⟩]⟩]⟩ : ModelPresetsFile).presets.map (fun p => p.id))
    ∧ (importPresets
        (some (exportPresets ⟨[⟨"old-id", "n", none, 0, 0, [⟨"prov", "mid", none⟩]⟩]⟩ none))
        (fun _ => "fresh") 5 ⟨[⟨"old-id", "n", none, 0, 0, [⟨"prov", "mid", none⟩]⟩]⟩).1
        = .ok (freshImportsOf (fun _ => "fresh") 5 0
            [⟨"old-id", "n", none, 0, 0, [⟨"prov", "mid", none⟩]⟩]) :=
  ⟨⟨by decide, fun i _ => (by decide : ("fresh" : String) ∉ ["old-id"])⟩,
   (exportImport_roundTrip ⟨[⟨"old-id", "n", none, 0, 0, [⟨"prov", "mid", none⟩]⟩]⟩
      (fun _ => "fresh") 5 (by decide)
      (fun i _ => (by decide : ("fresh" : String) ∉ ["old-id"]))).1⟩

end Mup
